import Mathlib

/-!
# vb6enc: encoding detection, strict transcoding and atomic rewrite

A shallow embedding of the Go program `vb6enc` (`main.go`,
`internal/detector/detector.go`, `internal/converter/converter.go`) together
with the library routines those files call:

* `unicode/utf8` of the Go standard library (`Valid`, `DecodeRune`,
  `EncodeRune`, `FullRune`);
* `golang.org/x/text/encoding/simplifiedchinese` (`gbkDecoder.Transform`,
  `gbkEncoder.Transform`, with the generated code tables as parameters);
* `golang.org/x/text/transform` (`Bytes`, `NewReader` followed by `io.ReadAll`);
* the `os` calls of `safeWrite`, `ConvertFile` and `DetectFile`, over an explicit
  file-system state with injected faults.

Bytes, runes and permission bits are natural numbers; a byte buffer is a
`List Nat`.  No definition assumes its bytes are below 256, so every theorem
holds in particular for all genuine byte buffers.
-/

namespace Vb6enc

/-! ## `unicode/utf8` -/

namespace utf8

/-- The "error" rune U+FFFD, the Unicode replacement character. -/
def RuneError : Nat := 0xFFFD
/-- Characters below `RuneSelf` are represented as themselves in a single byte. -/
def RuneSelf : Nat := 0x80
/-- Maximum valid Unicode code point. -/
def MaxRune : Nat := 0x10FFFF

def surrogateMin : Nat := 0xD800
def surrogateMax : Nat := 0xDFFF

def t1 : Nat := 0x00
def tx : Nat := 0x80
def t2 : Nat := 0xC0
def t3 : Nat := 0xE0
def t4 : Nat := 0xF0
def t5 : Nat := 0xF8

def maskx : Nat := 0x3F
def mask2 : Nat := 0x1F
def mask3 : Nat := 0x0F
def mask4 : Nat := 0x07

def rune1Max : Nat := 0x7F
def rune2Max : Nat := 0x7FF
def rune3Max : Nat := 0xFFFF

/-- The default lowest continuation byte. -/
def locb : Nat := 0x80
/-- The default highest continuation byte. -/
def hicb : Nat := 0xBF

/-- Entry of `first` for an invalid starter byte: size 1. -/
def xx : Nat := 0xF1
/-- Entry of `first` for an ASCII byte: size 1. -/
def as : Nat := 0xF0
/-- Accept range 0, size 2. -/
def s1 : Nat := 0x02
/-- Accept range 1, size 3. -/
def s2 : Nat := 0x13
/-- Accept range 0, size 3. -/
def s3 : Nat := 0x03
/-- Accept range 2, size 3. -/
def s4 : Nat := 0x23
/-- Accept range 3, size 4. -/
def s5 : Nat := 0x34
/-- Accept range 0, size 4. -/
def s6 : Nat := 0x04
/-- Accept range 4, size 4. -/
def s7 : Nat := 0x44

/-- The table `first [256]uint8`: information about the first byte of a UTF-8
sequence, written by the rows of the table (0x00-0x7F `as`, 0x80-0xC1 `xx`,
0xC2-0xDF `s1`, 0xE0 `s2`, 0xE1-0xEC `s3`, 0xED `s4`, 0xEE-0xEF `s3`, 0xF0 `s5`,
0xF1-0xF3 `s6`, 0xF4 `s7`, 0xF5-0xFF `xx`). -/
def first (b : Nat) : Nat :=
  if b < 0x80 then as
  else if b < 0xC2 then xx
  else if b < 0xE0 then s1
  else if b = 0xE0 then s2
  else if b < 0xED then s3
  else if b = 0xED then s4
  else if b < 0xF0 then s3
  else if b = 0xF0 then s5
  else if b < 0xF4 then s6
  else if b = 0xF4 then s7
  else xx

/-- An `acceptRange` gives the range of valid values for the second byte. -/
structure acceptRange where
  lo : Nat
  hi : Nat
deriving DecidableEq, Repr

/-- The table `acceptRanges [16]acceptRange`; the entries above index 4 are the
zero value of the type. -/
def acceptRanges (i : Nat) : acceptRange :=
  if i = 0 then ⟨locb, hicb⟩
  else if i = 1 then ⟨0xA0, hicb⟩
  else if i = 2 then ⟨locb, 0x9F⟩
  else if i = 3 then ⟨0x90, hicb⟩
  else if i = 4 then ⟨locb, 0x8F⟩
  else ⟨0, 0⟩

/-- The main loop of `Valid`, `for i := 0; i < n; { ... }`, on the bytes
`p[i:]` that are left; `fuel` bounds the number of iterations, each of which
consumes at least one byte. -/
def validLoop : Nat → List Nat → Bool
  | 0, _ => true
  | _ + 1, [] => true
  | fuel + 1, pi :: rest =>
    if pi < RuneSelf then validLoop fuel rest
    else
      let x := first pi
      if x = xx then false -- Illegal starter byte.
      else
        let size := x &&& 7
        if size > (pi :: rest).length then false -- Short or invalid.
        else
          let accept := acceptRanges (x >>> 4)
          let c := rest.getD 0 0
          if c < accept.lo ∨ accept.hi < c then false
          else if size = 2 then validLoop fuel (rest.drop 1)
          else
            let c := rest.getD 1 0
            if c < locb ∨ hicb < c then false
            else if size = 3 then validLoop fuel (rest.drop 2)
            else
              let c := rest.getD 2 0
              if c < locb ∨ hicb < c then false
              else validLoop fuel (rest.drop 3)

/-- The fast path of `Valid`, `for len(p) >= 8 { ... p = p[8:] }`: skip 8
bytes at a time until a group holds a non-ASCII byte (the test
`(first32|second32)&0x80808080 != 0`, "found a non ASCII byte (>= RuneSelf)"). -/
def skipASCII : Nat → List Nat → List Nat
  | 0, p => p
  | fuel + 1, p =>
    if 8 ≤ p.length ∧ (p.take 8).all (fun b => b < RuneSelf) then skipASCII fuel (p.drop 8)
    else p

/-- `utf8.Valid` reports whether `p` consists entirely of valid UTF-8-encoded runes. -/
def Valid (p : List Nat) : Bool :=
  let p := skipASCII p.length p
  validLoop p.length p

/-- `utf8.DecodeRune` unpacks the first UTF-8 encoding in `p` and returns the
rune and its width in bytes; an invalid encoding gives `(RuneError, 1)`, an
empty `p` gives `(RuneError, 0)`.  For `x >= as` the Go code selects between
`p[0]` and `RuneError` with a mask built from the low bit of `x`, which is 0
for `as` and 1 for `xx`. -/
def DecodeRune (p : List Nat) : Nat × Nat :=
  let n := p.length
  if n < 1 then (RuneError, 0)
  else
    let p0 := p.getD 0 0
    let x := first p0
    if x ≥ as then
      (if x &&& 1 = 0 then p0 else RuneError, 1)
    else
      let sz := x &&& 7
      let accept := acceptRanges (x >>> 4)
      if n < sz then (RuneError, 1)
      else
        let b1 := p.getD 1 0
        if b1 < accept.lo ∨ accept.hi < b1 then (RuneError, 1)
        else if sz ≤ 2 then (((p0 &&& mask2) <<< 6) ||| (b1 &&& maskx), 2)
        else
          let b2 := p.getD 2 0
          if b2 < locb ∨ hicb < b2 then (RuneError, 1)
          else if sz ≤ 3 then
            (((p0 &&& mask3) <<< 12) ||| ((b1 &&& maskx) <<< 6) ||| (b2 &&& maskx), 3)
          else
            let b3 := p.getD 3 0
            if b3 < locb ∨ hicb < b3 then (RuneError, 1)
            else
              (((p0 &&& mask4) <<< 18) ||| ((b1 &&& maskx) <<< 12) ||| ((b2 &&& maskx) <<< 6)
                ||| (b3 &&& maskx), 4)

/-- `utf8.FullRune` reports whether the bytes in `p` begin with a full UTF-8
encoding of a rune (an invalid encoding counts as a full rune). -/
def FullRune (p : List Nat) : Bool :=
  let n := p.length
  if n = 0 then false
  else
    let x := first (p.getD 0 0)
    if n ≥ x &&& 7 then true -- ASCII, invalid or valid.
    else
      let accept := acceptRanges (x >>> 4)
      if n > 1 ∧ (p.getD 1 0 < accept.lo ∨ accept.hi < p.getD 1 0) then true
      else if n > 2 ∧ (p.getD 2 0 < locb ∨ hicb < p.getD 2 0) then true
      else false

/-- `utf8.EncodeRune`: the UTF-8 encoding of the rune `r` (the bytes written
into `p[:n]`).  `byte(_)` is reduction modulo 256; the runes handled here are
non-negative, so `uint32(r)` is `r` itself. -/
def EncodeRune (r : Nat) : List Nat :=
  if r ≤ rune1Max then [r % 256]
  else if r ≤ rune2Max then [t2 ||| ((r >>> 6) % 256), tx ||| ((r % 256) &&& maskx)]
  else
    let r := if r > MaxRune ∨ (surrogateMin ≤ r ∧ r ≤ surrogateMax) then RuneError else r
    if r ≤ rune3Max then
      [t3 ||| ((r >>> 12) % 256), tx ||| (((r >>> 6) % 256) &&& maskx), tx ||| ((r % 256) &&& maskx)]
    else
      [t4 ||| ((r >>> 18) % 256), tx ||| (((r >>> 12) % 256) &&& maskx),
        tx ||| (((r >>> 6) % 256) &&& maskx), tx ||| ((r % 256) &&& maskx)]

/-- The runes of `p` read front to back with `DecodeRune`, as `for _, r := range
string(p)` yields them: the scalar characters of `p` when `p` is valid UTF-8,
with `RuneError` for each byte that starts no valid encoding. -/
def runesLoop : Nat → List Nat → List Nat
  | 0, _ => []
  | _ + 1, [] => []
  | fuel + 1, b :: rest =>
    (DecodeRune (b :: rest)).1 :: runesLoop fuel ((b :: rest).drop (DecodeRune (b :: rest)).2)

/-- The character sequence a buffer decodes to as UTF-8. -/
def runes (p : List Nat) : List Nat := runesLoop p.length p

end utf8

/-! ## `golang.org/x/text/encoding/simplifiedchinese`: the GBK codec

`simplifiedchinese.GBK` is built from `gbkDecoder{gb18030: false}` and
`gbkEncoder{gb18030: false}`; the branches of `Transform` guarded by
`d.gb18030` / `e.gb18030` are therefore dead and left out.  The destination
buffer is not bounded here, so `transform.ErrShortDst` does not arise: the
drivers in `transform` answer it by making room and calling `Transform` again
where it stopped, and both transformers are stateless. -/

/-- The generated tables of `simplifiedchinese/tables.go`: `decode`
(`[...]uint16` of length `numDecode`, indexed by `(lead-0x81)*190 + trail index`)
and `encode0` to `encode4` (`uint16`, indexed by `r - encodeNLow`).  Their
contents are not part of this development; every entry is read modulo `2^16`. -/
structure Tables where
  decode : Nat → Nat
  encode0 : Nat → Nat
  encode1 : Nat → Nat
  encode2 : Nat → Nat
  encode3 : Nat → Nat
  encode4 : Nat → Nat

/-- Length of the `decode` table, `len(decode)`: the table literal ends at index
23844, short of the `126*190 = 23940` codes a lead and a trail byte can form,
and an index at or beyond it decodes to U+FFFD. -/
def numDecode : Nat := 23845

def encode0Low : Nat := 11905
def encode0High : Nat := 40870
def encode1Low : Nat := 8208
def encode1High : Nat := 9795
def encode2Low : Nat := 164
def encode2High : Nat := 1106
def encode3Low : Nat := 65072
def encode3High : Nat := 65510
def encode4Low : Nat := 63788
def encode4High : Nat := 64042

/-- Errors a `transform.Transformer` can report. -/
inductive TransformErr where
  /-- The error `transform.ErrShortSrc`: the source ends inside a character and `atEOF` is false. -/
  | ErrShortSrc
  /-- The error `internal.ErrASCIIReplacement`, a `RepertoireError`: "rune not supported by encoding". -/
  | ErrASCIIReplacement
deriving DecidableEq, Repr

namespace gbkDecoder

/-- The loop of `gbkDecoder.Transform(dst, src, atEOF)` on the source bytes
`src[nSrc:]` still to be read; the result is the bytes appended to `dst`, or the
error.  Each iteration decodes one rune `r` of `size` source bytes and writes
`utf8.EncodeRune(r)`.  Undecodable input yields `utf8.RuneError` ('�'), and
the only error is `ErrShortSrc`, for a lead byte at the end of `src` when
`atEOF` is false. -/
def loop (T : Tables) (atEOF : Bool) : List Nat → Except TransformErr (List Nat)
  | [] => .ok []
  | c0 :: rest =>
    if c0 < utf8.RuneSelf then
      -- r, size = rune(c0), 1
      (loop T atEOF rest).map (utf8.EncodeRune c0 ++ ·)
    else if c0 = 0x80 then
      -- r, size = '€', 1
      (loop T atEOF rest).map (utf8.EncodeRune 0x20AC ++ ·)
    else if c0 < 0xff then
      match rest with
      | [] =>
        if !atEOF then .error .ErrShortSrc
        else
          -- r, size = utf8.RuneError, 1
          (loop T atEOF []).map (utf8.EncodeRune utf8.RuneError ++ ·)
      | c1 :: rest' =>
        if (0x40 ≤ c1 ∧ c1 < 0x7f) ∨ (0x80 ≤ c1 ∧ c1 < 0xff) then
          let c1 := if 0x40 ≤ c1 ∧ c1 < 0x7f then c1 - 0x40 else c1 - 0x41
          -- r, size = '�', 2
          let i := (c0 - 0x81) * 190 + c1
          let r :=
            if i < numDecode then
              (if T.decode i % 65536 = 0 then 0xFFFD else T.decode i % 65536)
            else 0xFFFD
          (loop T atEOF rest').map (utf8.EncodeRune r ++ ·)
        else
          -- default: r, size = utf8.RuneError, 1
          (loop T atEOF (c1 :: rest')).map (utf8.EncodeRune utf8.RuneError ++ ·)
    else
      -- default: r, size = utf8.RuneError, 1
      (loop T atEOF rest).map (utf8.EncodeRune utf8.RuneError ++ ·)

/-- The method `gbkDecoder.Transform` with an unbounded `dst`. -/
def Transform (T : Tables) (src : List Nat) (atEOF : Bool) : Except TransformErr (List Nat) :=
  loop T atEOF src

end gbkDecoder

namespace gbkEncoder

/-- Outcome of the table switch of `gbkEncoder.Transform` for one rune. -/
inductive Code where
  /-- Jump to `write1` with the byte `r`. -/
  | write1 (r : Nat)
  /-- Jump to `write2` with the two-byte code `r2`. -/
  | write2 (r2 : Nat)
  /-- No table maps the rune: `err = internal.ErrASCIIReplacement`. -/
  | unmapped
deriving DecidableEq, Repr

/-- The `switch` of `gbkEncoder.Transform` over the five encode tables for a
rune `r` decoded from a multi-byte sequence, with the Code Page 936 special
case of the euro sign, encoded as the single byte 0x80. -/
def lookup (T : Tables) (r : Nat) : Code :=
  if encode0Low ≤ r ∧ r < encode0High then
    (if T.encode0 (r - encode0Low) % 65536 ≠ 0 then .write2 (T.encode0 (r - encode0Low) % 65536)
     else .unmapped)
  else if encode1Low ≤ r ∧ r < encode1High then
    (if r = 0x20AC then .write1 0x80
     else if T.encode1 (r - encode1Low) % 65536 ≠ 0 then
       .write2 (T.encode1 (r - encode1Low) % 65536)
     else .unmapped)
  else if encode2Low ≤ r ∧ r < encode2High then
    (if T.encode2 (r - encode2Low) % 65536 ≠ 0 then .write2 (T.encode2 (r - encode2Low) % 65536)
     else .unmapped)
  else if encode3Low ≤ r ∧ r < encode3High then
    (if T.encode3 (r - encode3Low) % 65536 ≠ 0 then .write2 (T.encode3 (r - encode3Low) % 65536)
     else .unmapped)
  else if encode4Low ≤ r ∧ r < encode4High then
    (if T.encode4 (r - encode4Low) % 65536 ≠ 0 then .write2 (T.encode4 (r - encode4Low) % 65536)
     else .unmapped)
  else .unmapped

/-- The loop of `gbkEncoder.Transform(dst, src, atEOF)` on the source bytes
`src[nSrc:]` still to be read; `fuel` bounds the number of iterations, each of
which consumes at least one byte.  A byte below `utf8.RuneSelf` is copied;
otherwise `utf8.DecodeRune` reads a rune (`RuneError` for invalid UTF-8), which
is looked up in the tables, and an unmapped rune stops the transform with
`ErrASCIIReplacement`. -/
def loop (T : Tables) (atEOF : Bool) : Nat → List Nat → Except TransformErr (List Nat)
  | 0, _ => .ok []
  | _ + 1, [] => .ok []
  | fuel + 1, b :: rest =>
    if b < utf8.RuneSelf then
      -- size = 1; write1
      (loop T atEOF fuel rest).map (b % 256 :: ·)
    else
      let rs := utf8.DecodeRune (b :: rest)
      if rs.2 = 1 ∧ !atEOF ∧ !utf8.FullRune (b :: rest) then .error .ErrShortSrc
      else
        match lookup T rs.1 with
        | .write1 r => (loop T atEOF fuel ((b :: rest).drop rs.2)).map (r % 256 :: ·)
        | .write2 r2 =>
          (loop T atEOF fuel ((b :: rest).drop rs.2)).map
            (fun out => (r2 >>> 8) % 256 :: r2 % 256 :: out)
        | .unmapped => .error .ErrASCIIReplacement

/-- The method `gbkEncoder.Transform` with an unbounded `dst`. -/
def Transform (T : Tables) (src : List Nat) (atEOF : Bool) : Except TransformErr (List Nat) :=
  loop T atEOF src.length src

end gbkEncoder

/-- A rune has a GBK representation when the encoder has bytes for it: it is
ASCII, or the table switch maps it (to the byte 0x80 for the euro sign, to a
two-byte code otherwise). -/
def hasGBK (T : Tables) (r : Nat) : Prop :=
  r < utf8.RuneSelf ∨ gbkEncoder.lookup T r ≠ .unmapped

instance (T : Tables) (r : Nat) : Decidable (hasGBK T r) := by
  unfold hasGBK; infer_instance

/-- The encode tables are inverse to the decode table: every two-byte code an
encode table holds is a lead byte 0x81-0xFE followed by a trail byte 0x40-0x7E
or 0x80-0xFE, its index lies inside the decode table (below `len(decode)`),
and the decode table maps it back to the rune it encodes.  (The table
generator fills the encode tables from the entries of the decode table in
this way.) -/
def Tables.Inverse (T : Tables) : Prop :=
  ∀ r r2 : Nat, gbkEncoder.lookup T r = .write2 r2 →
    0x81 ≤ (r2 >>> 8) % 256 ∧ (r2 >>> 8) % 256 < 0xff ∧
    ((0x40 ≤ r2 % 256 ∧ r2 % 256 < 0x7f) ∨ (0x80 ≤ r2 % 256 ∧ r2 % 256 < 0xff)) ∧
    ((r2 >>> 8) % 256 - 0x81) * 190 +
      (if 0x40 ≤ r2 % 256 ∧ r2 % 256 < 0x7f then r2 % 256 - 0x40 else r2 % 256 - 0x41)
      < numDecode ∧
    T.decode (((r2 >>> 8) % 256 - 0x81) * 190 +
      (if 0x40 ≤ r2 % 256 ∧ r2 % 256 < 0x7f then r2 % 256 - 0x40 else r2 % 256 - 0x41)) % 65536 = r

/-- A fragment of the code tables: the entries of U+4E2D (0xD6D0) and U+6587
(0xCEC4), every other entry empty. -/
def zhongwenTables : Tables where
  decode := fun i => if i = 16293 then 0x4E2D else if i = 14761 then 0x6587 else 0
  encode0 := fun i => if i = 0x4E2D - 11905 then 0xD6D0 else if i = 0x6587 - 11905 then 0xCEC4 else 0
  encode1 := fun _ => 0
  encode2 := fun _ => 0
  encode3 := fun _ => 0
  encode4 := fun _ => 0

/-! ## `golang.org/x/text/transform` -/

namespace transform

/-- The function `transform.Bytes(t, b)` for the GBK decoder: `doAppend` calls
`t.Transform(dst, src[pSrc:], true)`, growing `dst` on `ErrShortDst`, and returns
the first other outcome. -/
def BytesDecode (T : Tables) (b : List Nat) : Except TransformErr (List Nat) :=
  gbkDecoder.Transform T b true

/-- The composition `io.ReadAll(transform.NewReader(bytes.NewReader(data), dec))`
for the GBK decoder: the reader feeds `data` to `Transform` in chunks, reading
more source on `ErrShortSrc` and passing `atEOF = true` once the source is
exhausted; for a stateless transformer that resumes at `nSrc` the bytes and the
error read are those of one `Transform` call on all of `data` at EOF. -/
def ReadAllDecode (T : Tables) (data : List Nat) : Except TransformErr (List Nat) :=
  gbkDecoder.Transform T data true

/-- The composition `io.ReadAll(transform.NewReader(bytes.NewReader(data), enc))`
for the GBK encoder, as `ReadAllDecode`. -/
def ReadAllEncode (T : Tables) (data : List Nat) : Except TransformErr (List Nat) :=
  gbkEncoder.Transform T data true

end transform

/-! ## `internal/detector` -/

/-- The type `detector.Encoding` with its three constants. -/
inductive Encoding where
  | UTF8
  | GBK
  | Unknown
deriving DecidableEq, Repr

open Encoding

/-- The function `canDecodeGBK` checks if the data can be cleanly decoded using
the GBK decoder: `_, _, err := transform.Bytes(GBK.NewDecoder(), data); return err == nil`. -/
def canDecodeGBK (T : Tables) (data : List Nat) : Bool :=
  match transform.BytesDecode T data with
  | .ok _ => true
  | .error _ => false

/-- The function `Detect` determines the encoding of the provided byte slice. -/
def Detect (T : Tables) (data : List Nat) : Encoding :=
  let isUtf8 := utf8.Valid data
  let isGbk := canDecodeGBK T data
  if isUtf8 && isGbk then UTF8
  else if isUtf8 then UTF8
  else if isGbk then GBK
  else Unknown

/-! ## `internal/converter`: the transforms -/

/-- The function `TransformToUTF8` converts GBK encoded data to UTF-8. -/
def TransformToUTF8 (T : Tables) (data : List Nat) : Except TransformErr (List Nat) :=
  transform.ReadAllDecode T data

/-- The function `TransformToGBK` converts UTF-8 encoded data to GBK. -/
def TransformToGBK (T : Tables) (data : List Nat) : Except TransformErr (List Nat) :=
  transform.ReadAllEncode T data

/-! ## The file system and the `os` calls

The disk is a map from paths to regular files.  What the operating system may
do beyond the program's control (an I/O error, the process umask) is an
explicit parameter `OS` of every call. -/

/-- A file path, given by its directory `filepath.Dir(path)` and its last
element `filepath.Base(path)`; `filepath.Join(dir, name)` puts the two together
again. -/
structure Path where
  dir : String
  name : String
deriving DecidableEq, Repr

/-- A regular file: its bytes and its permission bits (`info.Mode().Perm()`). -/
structure FileNode where
  data : List Nat
  perm : Nat
deriving DecidableEq, Repr

/-- The disk: the regular file at each path, if there is one. -/
abbrev FS := Path → Option FileNode

/-- How the write of `os.WriteFile` goes. -/
inductive WriteFault where
  /-- The file is opened and all data is written. -/
  | none
  /-- The call `OpenFile(name, O_WRONLY|O_CREATE|O_TRUNC, perm)` fails; the disk is untouched. -/
  | openFails
  /-- The file is opened (created or truncated), then `Write` or `Close` fails
  with only the first `written` bytes on disk. -/
  | writeFails (written : Nat)
deriving DecidableEq, Repr

/-- The environment of one call: the process umask and the I/O errors the
operating system injects. -/
structure OS where
  umask : Nat
  openFails : Bool
  readAllFails : Bool
  readFileFails : Bool
  statFails : Bool
  write : WriteFault
  renameFails : Bool
  removeFails : Bool
deriving DecidableEq, Repr

/-- An error of the `os` package (`*PathError`, `*LinkError`). -/
inductive IOErr where
  | pathError
deriving DecidableEq, Repr

/-- The disk `fs` with the entry at `p` replaced by `f`. -/
def FS.set (fs : FS) (p : Path) (f : Option FileNode) : FS :=
  fun q => if q = p then f else fs q

namespace os

/-- The call `os.Stat(name)`: the file's `FileInfo`, or an error when there is no such file. -/
def Stat (o : OS) (fs : FS) (name : Path) : Except IOErr FileNode :=
  if o.statFails then .error .pathError
  else
    match fs name with
    | none => .error .pathError
    | some f => .ok f

/-- The call `os.ReadFile(name)`: the whole content of the file. -/
def ReadFile (o : OS) (fs : FS) (name : Path) : Except IOErr (List Nat) :=
  if o.readFileFails then .error .pathError
  else
    match fs name with
    | none => .error .pathError
    | some f => .ok f.data

/-- The call `os.WriteFile(name, data, perm)`: "writes data to the named file,
creating it if necessary.  If the file does not exist, WriteFile creates it
with permissions perm (before umask); otherwise WriteFile truncates it before
writing, without changing permissions." -/
def WriteFile (o : OS) (fs : FS) (name : Path) (data : List Nat) (perm : Nat) :
    FS × Option IOErr :=
  match o.write with
  | .openFails => (fs, some .pathError)
  | w =>
    let mode :=
      match fs name with
      | some f => f.perm
      | none => perm &&& (0o777 ^^^ (o.umask &&& 0o777))
    match w with
    | .writeFails written => (fs.set name (some ⟨data.take written, mode⟩), some .pathError)
    | _ => (fs.set name (some ⟨data, mode⟩), none)

/-- The call `os.Rename(oldpath, newpath)`: moves the file, replacing `newpath` if it exists. -/
def Rename (o : OS) (fs : FS) (oldpath newpath : Path) : FS × Option IOErr :=
  if o.renameFails then (fs, some .pathError)
  else
    match fs oldpath with
    | none => (fs, some .pathError)
    | some f => ((fs.set oldpath none).set newpath (some f), none)

/-- The call `os.Remove(name)`: removes the named file. -/
def Remove (o : OS) (fs : FS) (name : Path) : FS × Option IOErr :=
  if o.removeFails then (fs, some .pathError)
  else
    match fs name with
    | none => (fs, some .pathError)
    | some _ => (fs.set name none, none)

end os

/-! ## `internal/detector`: `DetectFile` -/

/-- The constant `maxRead` of `DetectFile`. -/
def maxRead : Nat := 50 * 1024 * 1024

/-- The function `DetectFile` reads the file and detects its encoding: `os.Open`,
then `io.ReadAll(io.LimitReader(f, maxRead))`, `UTF8` for an empty content and
`Detect(content)` otherwise; `(Unknown, err)` on an I/O error. -/
def DetectFile (T : Tables) (o : OS) (fs : FS) (path : Path) : Encoding × Option IOErr :=
  if o.openFails then (Unknown, some .pathError)
  else
    match fs path with
    | none => (Unknown, some .pathError)
    | some f =>
      if o.readAllFails then (Unknown, some .pathError)
      else
        let content := f.data.take maxRead
        if content.length = 0 then (UTF8, none) -- Empty file is valid UTF-8
        else (Detect T content, none)

/-! ## `internal/converter`: `safeWrite` and `ConvertFile` -/

/-- The errors `ConvertFile` and `safeWrite` build with `fmt.Errorf`. -/
inductive ConvertErr where
  /-- The message "failed to read file: %w". -/
  | readFailed
  /-- The message "transformation failed: %w". -/
  | transformationFailed (e : TransformErr)
  /-- The message "stat failed: %w". -/
  | statFailed
  /-- The message "write tmp failed: %w". -/
  | writeTmpFailed
  /-- The message "replace failed: %w". -/
  | replaceFailed
deriving DecidableEq, Repr

/-- The temporary path of `safeWrite`: `filepath.Join(dir, name+".tmp")`. -/
def tmpPath (path : Path) : Path :=
  let dir := path.dir
  let name := path.name
  ⟨dir, name ++ ".tmp"⟩

/-- The function `safeWrite(path, data)`: stat the target for its permission
bits, write `data` to the temporary path with them, rename the temporary path
onto the target; the temporary file is removed when the rename fails.  The
result is the disk afterwards and the error returned (`none` for `nil`). -/
def safeWrite (o : OS) (fs : FS) (path : Path) (data : List Nat) : FS × Option ConvertErr :=
  match os.Stat o fs path with
  | .error _ => (fs, some .statFailed)
  | .ok info =>
    let perm := info.perm &&& 0o777
    match os.WriteFile o fs (tmpPath path) data perm with
    | (fs1, some _) => (fs1, some .writeTmpFailed)
    | (fs1, none) =>
      match os.Rename o fs1 (tmpPath path) path with
      | (fs2, some _) =>
        -- Clean up tmp on failure
        ((os.Remove o fs2 (tmpPath path)).1, some .replaceFailed)
      | (fs2, none) => (fs2, none)

/-- The function `ConvertFile(path, toUTF8)` converts the file at `path`: GBK to
UTF-8 if `toUTF8` is true, UTF-8 to GBK otherwise.  The flag `wrote` of the
result records whether `safeWrite` was called. -/
def ConvertFile (T : Tables) (o : OS) (fs : FS) (path : Path) (toUTF8 : Bool) :
    FS × Option ConvertErr × Bool :=
  match os.ReadFile o fs path with
  | .error _ => (fs, some .readFailed, false)
  | .ok content =>
    let res := if toUTF8 then TransformToUTF8 T content else TransformToGBK T content
    match res with
    | .error e => (fs, some (.transformationFailed e), false)
    | .ok newContent =>
      let w := safeWrite o fs path newContent
      (w.1, w.2, true)

/-! ## `main.go`: `runConvert` -/

/-- The three counters of `runConvert`. -/
structure Tally where
  successCount : Nat
  skipCount : Nat
  failCount : Nat
deriving DecidableEq, Repr

/-- State of the loop of `runConvert`: the disk, the counters, and the list of
files `ConvertFile` has been called on, oldest first (a ghost field). -/
structure Run where
  fs : FS
  tally : Tally
  calls : List Path

/-- The body of `for _, file := range files` in `runConvert(args, toUTF8)` from
the line after `enc, err := detector.DetectFile(file)` on, `det` being the
pair that call returned. -/
def runConvertBody (T : Tables) (o : OS) (toUTF8 : Bool) (s : Run) (file : Path)
    (det : Encoding × Option IOErr) : Run :=
  match det with
  | (_, some _) => { s with tally := { s.tally with failCount := s.tally.failCount + 1 } }
  | (enc, none) =>
    let shouldConvert :=
      if toUTF8 then (if enc = GBK then true else false)
      else (if enc = UTF8 then true else false)
    if !shouldConvert then
      { s with tally := { s.tally with skipCount := s.tally.skipCount + 1 } }
    else
      match ConvertFile T o s.fs file toUTF8 with
      | (fs1, some _, _) =>
        { fs := fs1, calls := s.calls ++ [file],
          tally := { s.tally with failCount := s.tally.failCount + 1 } }
      | (fs1, none, _) =>
        { fs := fs1, calls := s.calls ++ [file],
          tally := { s.tally with successCount := s.tally.successCount + 1 } }

/-- One iteration of `for _, file := range files` in `runConvert(args, toUTF8)`:
`detector.DetectFile(file)`, then the rest of the body on its result. -/
def runConvertStep (T : Tables) (o : OS) (toUTF8 : Bool) (s : Run) (file : Path) : Run :=
  runConvertBody T o toUTF8 s file (DetectFile T o s.fs file)

/-- The function `runConvert(args, toUTF8)` after `w.Walk(root)`: `none` stands
for `os.Exit(1)` when the walk failed; otherwise the files are processed in
order, each under the environment `env file`, from zeroed counters. -/
def runConvert (T : Tables) (env : Path → OS) (toUTF8 : Bool) (fs : FS)
    (walk : Except IOErr (List Path)) : Option Run :=
  match walk with
  | .error _ => none
  | .ok files =>
    some (files.foldl (fun s file => runConvertStep T (env file) toUTF8 s file)
      { fs := fs, tally := ⟨0, 0, 0⟩, calls := [] })

/-! ## Sample states -/

/-- The path `src/Form1.frm`. -/
def formPath : Path := ⟨"src", "Form1.frm"⟩

/-- A disk holding the single file `src/Form1.frm` with the given bytes and permission bits. -/
def diskWith (data : List Nat) (perm : Nat) : FS :=
  fun q => if q = formPath then some ⟨data, perm⟩ else none

/-- An environment with the given umask in which no I/O error is injected. -/
def quietOS (umask : Nat) : OS :=
  { umask := umask, openFails := false, readAllFails := false, readFileFails := false,
    statFails := false, write := .none, renameFails := false, removeFails := false }

/-! ## Lemmas on `unicode/utf8` -/

namespace utf8

theorem and_3F (x : Nat) : x &&& 0x3F = x % 64 := Nat.and_pow_two_sub_one_eq_mod x 6
theorem and_1F (x : Nat) : x &&& 0x1F = x % 32 := Nat.and_pow_two_sub_one_eq_mod x 5
theorem and_0F (x : Nat) : x &&& 0x0F = x % 16 := Nat.and_pow_two_sub_one_eq_mod x 4
theorem and_07 (x : Nat) : x &&& 0x07 = x % 8 := Nat.and_pow_two_sub_one_eq_mod x 3
theorem and_01 (x : Nat) : x &&& 1 = x % 2 := Nat.and_pow_two_sub_one_eq_mod x 1

theorem shl_or (a b k : Nat) (h : b < 2 ^ k) : (a <<< k) ||| b = a * 2 ^ k + b := by
  rw [Nat.shiftLeft_eq, Nat.mul_comm a, Nat.mul_add_lt_is_or h]

theorem or_lit (c a b k : Nat) (hc : c = 2 ^ k * a) (h : b < 2 ^ k) : c ||| b = c + b := by
  subst hc; exact (Nat.mul_add_lt_is_or h a).symm

/-- The rows of the table `first`. -/
theorem first_cases (b : Nat) :
    (b < 0x80 ∧ first b = 0xF0) ∨ ((0x80 ≤ b ∧ b < 0xC2 ∨ 0xF5 ≤ b) ∧ first b = 0xF1) ∨
    (0xC2 ≤ b ∧ b < 0xE0 ∧ first b = 0x02) ∨ (b = 0xE0 ∧ first b = 0x13) ∨
    ((0xE1 ≤ b ∧ b < 0xED ∨ b = 0xEE ∨ b = 0xEF) ∧ first b = 0x03) ∨
    (b = 0xED ∧ first b = 0x23) ∨ (b = 0xF0 ∧ first b = 0x34) ∨
    (0xF1 ≤ b ∧ b < 0xF4 ∧ first b = 0x04) ∨ (b = 0xF4 ∧ first b = 0x44) := by
  simp only [first, as, xx, s1, s2, s3, s4, s5, s6, s7]
  split_ifs <;> simp <;> omega

theorem two_byte (p0 b1 : Nat) (h0 : 0xC2 ≤ p0) (h0' : p0 < 0xE0) (h1 : 0x80 ≤ b1) (h1' : b1 ≤ 0xBF) :
    EncodeRune (((p0 &&& mask2) <<< 6) ||| (b1 &&& maskx)) = [p0, b1] := by
  simp only [mask2, maskx, and_1F, and_3F]
  rw [shl_or _ _ _ (by omega)]
  have hr : 0x80 ≤ p0 % 32 * 2 ^ 6 + b1 % 64 ∧ p0 % 32 * 2 ^ 6 + b1 % 64 ≤ 0x7FF := by omega
  generalize hrr : p0 % 32 * 2 ^ 6 + b1 % 64 = r at hr
  unfold EncodeRune
  simp only [rune1Max, rune2Max, t2, tx, maskx, and_3F, Nat.shiftRight_eq_div_pow]
  rw [if_neg (by omega), if_pos (by omega)]
  rw [or_lit 0xC0 3 _ 6 (by norm_num) (by omega), or_lit 0x80 2 _ 6 (by norm_num) (by omega)]
  congr 1
  · omega
  · congr 1; omega


theorem three_byte (p0 b1 b2 : Nat) (h0 : 0xE0 ≤ p0) (h0' : p0 < 0xF0)
    (h1 : 0x80 ≤ b1) (h1' : b1 ≤ 0xBF) (hE0 : p0 = 0xE0 → 0xA0 ≤ b1) (hED : p0 = 0xED → b1 ≤ 0x9F)
    (h2 : 0x80 ≤ b2) (h2' : b2 ≤ 0xBF) :
    EncodeRune (((p0 &&& mask3) <<< 12) ||| ((b1 &&& maskx) <<< 6) ||| (b2 &&& maskx))
      = [p0, b1, b2] := by
  simp only [mask3, maskx, and_0F, and_3F]
  rw [Nat.shiftLeft_eq (p0 % 16) 12, Nat.shiftLeft_eq (b1 % 64) 6,
    show p0 % 16 * 2 ^ 12 = 2 ^ 12 * (p0 % 16) by ring,
    ← Nat.mul_add_lt_is_or (by omega), show 2 ^ 12 * (p0 % 16) + b1 % 64 * 2 ^ 6
      = 2 ^ 6 * (64 * (p0 % 16) + b1 % 64) by ring, ← Nat.mul_add_lt_is_or (by omega)]
  have hr : 0x800 ≤ 2 ^ 6 * (64 * (p0 % 16) + b1 % 64) + b2 % 64 ∧
      2 ^ 6 * (64 * (p0 % 16) + b1 % 64) + b2 % 64 ≤ 0xFFFF ∧
      ¬ (0xD800 ≤ 2 ^ 6 * (64 * (p0 % 16) + b1 % 64) + b2 % 64 ∧
        2 ^ 6 * (64 * (p0 % 16) + b1 % 64) + b2 % 64 ≤ 0xDFFF) := by omega
  have e0 : (2 ^ 6 * (64 * (p0 % 16) + b1 % 64) + b2 % 64) / 4096 = p0 - 0xE0 := by omega
  have e1 : (2 ^ 6 * (64 * (p0 % 16) + b1 % 64) + b2 % 64) / 64 % 64 = b1 - 0x80 := by omega
  have e2 : (2 ^ 6 * (64 * (p0 % 16) + b1 % 64) + b2 % 64) % 64 = b2 - 0x80 := by omega
  generalize 2 ^ 6 * (64 * (p0 % 16) + b1 % 64) + b2 % 64 = r at hr e0 e1 e2
  unfold EncodeRune
  simp only [rune1Max, rune2Max, rune3Max, MaxRune, surrogateMin, surrogateMax, t3, tx, maskx,
    and_3F, Nat.shiftRight_eq_div_pow]
  have hC : (if r > 1114111 ∨ 55296 ≤ r ∧ r ≤ 57343 then RuneError else r) = r :=
    if_neg (by omega)
  simp only [hC]
  rw [if_neg (by omega), if_neg (by omega), if_pos (by omega)]
  rw [or_lit 0xE0 7 _ 5 (by norm_num) (by omega), or_lit 0x80 2 _ 6 (by norm_num) (by omega),
    or_lit 0x80 2 _ 6 (by norm_num) (by omega)]
  congr 1
  · omega
  · congr 1
    · omega
    · congr 1; omega


theorem four_byte (p0 b1 b2 b3 : Nat) (h0 : 0xF0 ≤ p0) (h0' : p0 ≤ 0xF4)
    (h1 : 0x80 ≤ b1) (h1' : b1 ≤ 0xBF) (hF0 : p0 = 0xF0 → 0x90 ≤ b1) (hF4 : p0 = 0xF4 → b1 ≤ 0x8F)
    (h2 : 0x80 ≤ b2) (h2' : b2 ≤ 0xBF) (h3 : 0x80 ≤ b3) (h3' : b3 ≤ 0xBF) :
    EncodeRune (((p0 &&& mask4) <<< 18) ||| ((b1 &&& maskx) <<< 12) ||| ((b2 &&& maskx) <<< 6)
      ||| (b3 &&& maskx)) = [p0, b1, b2, b3] := by
  simp only [mask4, maskx, and_07, and_3F]
  rw [Nat.shiftLeft_eq (p0 % 8) 18, Nat.shiftLeft_eq (b1 % 64) 12, Nat.shiftLeft_eq (b2 % 64) 6,
    show p0 % 8 * 2 ^ 18 = 2 ^ 18 * (p0 % 8) by ring,
    ← Nat.mul_add_lt_is_or (by omega), show 2 ^ 18 * (p0 % 8) + b1 % 64 * 2 ^ 12
      = 2 ^ 12 * (64 * (p0 % 8) + b1 % 64) by ring, ← Nat.mul_add_lt_is_or (by omega),
    show 2 ^ 12 * (64 * (p0 % 8) + b1 % 64) + b2 % 64 * 2 ^ 6
      = 2 ^ 6 * (64 * (64 * (p0 % 8) + b1 % 64) + b2 % 64) by ring,
    ← Nat.mul_add_lt_is_or (by omega)]
  have hr : 0x10000 ≤ 2 ^ 6 * (64 * (64 * (p0 % 8) + b1 % 64) + b2 % 64) + b3 % 64 ∧
      2 ^ 6 * (64 * (64 * (p0 % 8) + b1 % 64) + b2 % 64) + b3 % 64 ≤ 0x10FFFF := by omega
  have e0 : (2 ^ 6 * (64 * (64 * (p0 % 8) + b1 % 64) + b2 % 64) + b3 % 64) / 262144
      = p0 - 0xF0 := by omega
  have e1 : (2 ^ 6 * (64 * (64 * (p0 % 8) + b1 % 64) + b2 % 64) + b3 % 64) / 4096 % 64
      = b1 - 0x80 := by omega
  have e2 : (2 ^ 6 * (64 * (64 * (p0 % 8) + b1 % 64) + b2 % 64) + b3 % 64) / 64 % 64
      = b2 - 0x80 := by omega
  have e3 : (2 ^ 6 * (64 * (64 * (p0 % 8) + b1 % 64) + b2 % 64) + b3 % 64) % 64
      = b3 - 0x80 := by omega
  generalize 2 ^ 6 * (64 * (64 * (p0 % 8) + b1 % 64) + b2 % 64) + b3 % 64 = r at hr e0 e1 e2 e3
  unfold EncodeRune
  simp only [rune1Max, rune2Max, rune3Max, MaxRune, surrogateMin, surrogateMax, t4, tx, maskx,
    and_3F, Nat.shiftRight_eq_div_pow]
  have hC : (if r > 1114111 ∨ 55296 ≤ r ∧ r ≤ 57343 then RuneError else r) = r :=
    if_neg (by omega)
  simp only [hC]
  rw [if_neg (by omega), if_neg (by omega), if_neg (by omega)]
  rw [or_lit 0xF0 15 _ 4 (by norm_num) (by omega), or_lit 0x80 2 _ 6 (by norm_num) (by omega),
    or_lit 0x80 2 _ 6 (by norm_num) (by omega), or_lit 0x80 2 _ 6 (by norm_num) (by omega)]
  congr 1
  · omega
  · congr 1
    · omega
    · congr 1
      · omega
      · congr 1; omega


/-- One iteration on a sequence that `DecodeRune` accepts: `DecodeRune` consumes
between one and four bytes, the loop of `Valid` steps over the same bytes, and
`EncodeRune` gives those bytes back. -/
theorem decode_step (fuel p0 : Nat) (rest : List Nat)
    (h : (DecodeRune (p0 :: rest)).1 ≠ RuneError) :
    1 ≤ (DecodeRune (p0 :: rest)).2 ∧ (DecodeRune (p0 :: rest)).2 ≤ (p0 :: rest).length ∧
    validLoop (fuel + 1) (p0 :: rest) = validLoop fuel ((p0 :: rest).drop (DecodeRune (p0 :: rest)).2) ∧
    EncodeRune (DecodeRune (p0 :: rest)).1 = (p0 :: rest).take (DecodeRune (p0 :: rest)).2 := by
  rcases first_cases p0 with ⟨hb, hf⟩ | ⟨hb, hf⟩ | ⟨hb, hb', hf⟩ | ⟨hb, hf⟩ | ⟨hb, hf⟩ | ⟨hb, hf⟩ |
    ⟨hb, hf⟩ | ⟨hb, hb', hf⟩ | ⟨hb, hf⟩
  · have e : DecodeRune (p0 :: rest) = (p0, 1) := by
      simp [DecodeRune, hf, as, and_01]
    rw [e]
    refine ⟨le_refl _, by simp, ?_, ?_⟩
    · simp [validLoop, RuneSelf, hb]
    · simp only [EncodeRune, rune1Max]
      rw [if_pos (by omega)]
      simp; omega
  · exfalso; apply h
    simp [DecodeRune, hf, as, and_01]
  · cases rest with
    | nil => exfalso; apply h; simp [DecodeRune, hf, as, and_07]
    | cons b1 tl =>
      by_cases hb1 : b1 < 0x80 ∨ 0xBF < b1
      · exfalso; apply h
        simp [DecodeRune, hf, as, and_07, acceptRanges, locb, hicb, Nat.shiftRight_eq_div_pow, hb1]
      · have e : DecodeRune (p0 :: b1 :: tl) = (((p0 &&& mask2) <<< 6) ||| (b1 &&& maskx), 2) := by
          simp [DecodeRune, hf, as, and_07, acceptRanges, locb, hicb, Nat.shiftRight_eq_div_pow, hb1]
        rw [e]
        refine ⟨by omega, by simp, ?_, ?_⟩
        · have hp : ¬ p0 < 0x80 := by omega
          simp [validLoop, RuneSelf, hp, hf, xx, and_07, acceptRanges, locb, hicb,
            Nat.shiftRight_eq_div_pow, hb1]
        · rw [two_byte p0 b1 hb hb' (by omega) (by omega)]; simp
  · cases rest with
    | nil => exfalso; apply h; simp [DecodeRune, hf, as, and_07]
    | cons b1 tl =>
      cases tl with
      | nil => exfalso; apply h; simp [DecodeRune, hf, as, and_07]
      | cons b2 tl =>
        by_cases hb1 : b1 < 0xA0 ∨ 0xBF < b1
        · exfalso; apply h
          simp [DecodeRune, hf, as, and_07, acceptRanges, locb, hicb, Nat.shiftRight_eq_div_pow, hb1]
        · by_cases hb2 : b2 < 0x80 ∨ 0xBF < b2
          · exfalso; apply h
            simp [DecodeRune, hf, as, and_07, acceptRanges, locb, hicb, Nat.shiftRight_eq_div_pow,
              hb1, hb2]
          · have e : DecodeRune (p0 :: b1 :: b2 :: tl) =
                (((p0 &&& mask3) <<< 12) ||| ((b1 &&& maskx) <<< 6) ||| (b2 &&& maskx), 3) := by
              simp [DecodeRune, hf, as, and_07, acceptRanges, locb, hicb,
                Nat.shiftRight_eq_div_pow, hb1, hb2]
            rw [e]
            refine ⟨by omega, by simp, ?_, ?_⟩
            · have hp : ¬ p0 < 0x80 := by omega
              simp [validLoop, RuneSelf, hp, hf, xx, and_07, acceptRanges, locb, hicb,
                Nat.shiftRight_eq_div_pow, hb1, hb2]
            · rw [three_byte p0 b1 b2 (by omega) (by omega) (by omega) (by omega) (by omega)
                (by omega) (by omega) (by omega)]
              simp
  · cases rest with
    | nil => exfalso; apply h; simp [DecodeRune, hf, as, and_07]
    | cons b1 tl =>
      cases tl with
      | nil => exfalso; apply h; simp [DecodeRune, hf, as, and_07]
      | cons b2 tl =>
        by_cases hb1 : b1 < 0x80 ∨ 0xBF < b1
        · exfalso; apply h
          simp [DecodeRune, hf, as, and_07, acceptRanges, locb, hicb, Nat.shiftRight_eq_div_pow, hb1]
        · by_cases hb2 : b2 < 0x80 ∨ 0xBF < b2
          · exfalso; apply h
            simp [DecodeRune, hf, as, and_07, acceptRanges, locb, hicb, Nat.shiftRight_eq_div_pow,
              hb1, hb2]
          · have e : DecodeRune (p0 :: b1 :: b2 :: tl) =
                (((p0 &&& mask3) <<< 12) ||| ((b1 &&& maskx) <<< 6) ||| (b2 &&& maskx), 3) := by
              simp [DecodeRune, hf, as, and_07, acceptRanges, locb, hicb,
                Nat.shiftRight_eq_div_pow, hb1, hb2]
            rw [e]
            refine ⟨by omega, by simp, ?_, ?_⟩
            · have hp : ¬ p0 < 0x80 := by omega
              simp [validLoop, RuneSelf, hp, hf, xx, and_07, acceptRanges, locb, hicb,
                Nat.shiftRight_eq_div_pow, hb1, hb2]
            · rw [three_byte p0 b1 b2 (by omega) (by omega) (by omega) (by omega) (by omega)
                (by omega) (by omega) (by omega)]
              simp
  · cases rest with
    | nil => exfalso; apply h; simp [DecodeRune, hf, as, and_07]
    | cons b1 tl =>
      cases tl with
      | nil => exfalso; apply h; simp [DecodeRune, hf, as, and_07]
      | cons b2 tl =>
        by_cases hb1 : b1 < 0x80 ∨ 0x9F < b1
        · exfalso; apply h
          simp [DecodeRune, hf, as, and_07, acceptRanges, locb, hicb, Nat.shiftRight_eq_div_pow, hb1]
        · by_cases hb2 : b2 < 0x80 ∨ 0xBF < b2
          · exfalso; apply h
            simp [DecodeRune, hf, as, and_07, acceptRanges, locb, hicb, Nat.shiftRight_eq_div_pow,
              hb1, hb2]
          · have e : DecodeRune (p0 :: b1 :: b2 :: tl) =
                (((p0 &&& mask3) <<< 12) ||| ((b1 &&& maskx) <<< 6) ||| (b2 &&& maskx), 3) := by
              simp [DecodeRune, hf, as, and_07, acceptRanges, locb, hicb,
                Nat.shiftRight_eq_div_pow, hb1, hb2]
            rw [e]
            refine ⟨by omega, by simp, ?_, ?_⟩
            · have hp : ¬ p0 < 0x80 := by omega
              simp [validLoop, RuneSelf, hp, hf, xx, and_07, acceptRanges, locb, hicb,
                Nat.shiftRight_eq_div_pow, hb1, hb2]
            · rw [three_byte p0 b1 b2 (by omega) (by omega) (by omega) (by omega) (by omega)
                (by omega) (by omega) (by omega)]
              simp
  · cases rest with
    | nil => exfalso; apply h; simp [DecodeRune, hf, as, and_07]
    | cons b1 tl =>
      cases tl with
      | nil => exfalso; apply h; simp [DecodeRune, hf, as, and_07]
      | cons b2 tl =>
        cases tl with
        | nil => exfalso; apply h; simp [DecodeRune, hf, as, and_07]
        | cons b3 tl =>
          by_cases hb1 : b1 < 0x90 ∨ 0xBF < b1
          · exfalso; apply h
            simp [DecodeRune, hf, as, and_07, acceptRanges, locb, hicb, Nat.shiftRight_eq_div_pow,
              hb1]
          · by_cases hb2 : b2 < 0x80 ∨ 0xBF < b2
            · exfalso; apply h
              simp [DecodeRune, hf, as, and_07, acceptRanges, locb, hicb,
                Nat.shiftRight_eq_div_pow, hb1, hb2]
            · by_cases hb3 : b3 < 0x80 ∨ 0xBF < b3
              · exfalso; apply h
                simp [DecodeRune, hf, as, and_07, acceptRanges, locb, hicb,
                  Nat.shiftRight_eq_div_pow, hb1, hb2, hb3]
              · have e : DecodeRune (p0 :: b1 :: b2 :: b3 :: tl) =
                    (((p0 &&& mask4) <<< 18) ||| ((b1 &&& maskx) <<< 12) |||
                      ((b2 &&& maskx) <<< 6) ||| (b3 &&& maskx), 4) := by
                  simp [DecodeRune, hf, as, and_07, acceptRanges, locb, hicb,
                    Nat.shiftRight_eq_div_pow, hb1, hb2, hb3]
                rw [e]
                refine ⟨by omega, by simp, ?_, ?_⟩
                · have hp : ¬ p0 < 0x80 := by omega
                  simp [validLoop, RuneSelf, hp, hf, xx, and_07, acceptRanges, locb, hicb,
                    Nat.shiftRight_eq_div_pow, hb1, hb2, hb3]
                · rw [four_byte p0 b1 b2 b3 (by omega) (by omega) (by omega) (by omega)
                    (by omega) (by omega) (by omega) (by omega) (by omega) (by omega)]
                  simp
  · cases rest with
    | nil => exfalso; apply h; simp [DecodeRune, hf, as, and_07]
    | cons b1 tl =>
      cases tl with
      | nil => exfalso; apply h; simp [DecodeRune, hf, as, and_07]
      | cons b2 tl =>
        cases tl with
        | nil => exfalso; apply h; simp [DecodeRune, hf, as, and_07]
        | cons b3 tl =>
          by_cases hb1 : b1 < 0x80 ∨ 0xBF < b1
          · exfalso; apply h
            simp [DecodeRune, hf, as, and_07, acceptRanges, locb, hicb, Nat.shiftRight_eq_div_pow,
              hb1]
          · by_cases hb2 : b2 < 0x80 ∨ 0xBF < b2
            · exfalso; apply h
              simp [DecodeRune, hf, as, and_07, acceptRanges, locb, hicb,
                Nat.shiftRight_eq_div_pow, hb1, hb2]
            · by_cases hb3 : b3 < 0x80 ∨ 0xBF < b3
              · exfalso; apply h
                simp [DecodeRune, hf, as, and_07, acceptRanges, locb, hicb,
                  Nat.shiftRight_eq_div_pow, hb1, hb2, hb3]
              · have e : DecodeRune (p0 :: b1 :: b2 :: b3 :: tl) =
                    (((p0 &&& mask4) <<< 18) ||| ((b1 &&& maskx) <<< 12) |||
                      ((b2 &&& maskx) <<< 6) ||| (b3 &&& maskx), 4) := by
                  simp [DecodeRune, hf, as, and_07, acceptRanges, locb, hicb,
                    Nat.shiftRight_eq_div_pow, hb1, hb2, hb3]
                rw [e]
                refine ⟨by omega, by simp, ?_, ?_⟩
                · have hp : ¬ p0 < 0x80 := by omega
                  simp [validLoop, RuneSelf, hp, hf, xx, and_07, acceptRanges, locb, hicb,
                    Nat.shiftRight_eq_div_pow, hb1, hb2, hb3]
                · rw [four_byte p0 b1 b2 b3 (by omega) (by omega) (by omega) (by omega)
                    (by omega) (by omega) (by omega) (by omega) (by omega) (by omega)]
                  simp
  · cases rest with
    | nil => exfalso; apply h; simp [DecodeRune, hf, as, and_07]
    | cons b1 tl =>
      cases tl with
      | nil => exfalso; apply h; simp [DecodeRune, hf, as, and_07]
      | cons b2 tl =>
        cases tl with
        | nil => exfalso; apply h; simp [DecodeRune, hf, as, and_07]
        | cons b3 tl =>
          by_cases hb1 : b1 < 0x80 ∨ 0x8F < b1
          · exfalso; apply h
            simp [DecodeRune, hf, as, and_07, acceptRanges, locb, hicb, Nat.shiftRight_eq_div_pow,
              hb1]
          · by_cases hb2 : b2 < 0x80 ∨ 0xBF < b2
            · exfalso; apply h
              simp [DecodeRune, hf, as, and_07, acceptRanges, locb, hicb,
                Nat.shiftRight_eq_div_pow, hb1, hb2]
            · by_cases hb3 : b3 < 0x80 ∨ 0xBF < b3
              · exfalso; apply h
                simp [DecodeRune, hf, as, and_07, acceptRanges, locb, hicb,
                  Nat.shiftRight_eq_div_pow, hb1, hb2, hb3]
              · have e : DecodeRune (p0 :: b1 :: b2 :: b3 :: tl) =
                    (((p0 &&& mask4) <<< 18) ||| ((b1 &&& maskx) <<< 12) |||
                      ((b2 &&& maskx) <<< 6) ||| (b3 &&& maskx), 4) := by
                  simp [DecodeRune, hf, as, and_07, acceptRanges, locb, hicb,
                    Nat.shiftRight_eq_div_pow, hb1, hb2, hb3]
                rw [e]
                refine ⟨by omega, by simp, ?_, ?_⟩
                · have hp : ¬ p0 < 0x80 := by omega
                  simp [validLoop, RuneSelf, hp, hf, xx, and_07, acceptRanges, locb, hicb,
                    Nat.shiftRight_eq_div_pow, hb1, hb2, hb3]
                · rw [four_byte p0 b1 b2 b3 (by omega) (by omega) (by omega) (by omega)
                    (by omega) (by omega) (by omega) (by omega) (by omega) (by omega)]
                  simp


theorem validLoop_fuel (n : Nat) : ∀ (f1 f2 : Nat) (p : List Nat), p.length ≤ n → n ≤ f1 → n ≤ f2 →
    validLoop f1 p = validLoop f2 p := by
  induction n with
  | zero =>
    intro f1 f2 p hp _ _
    have : p = [] := List.length_eq_zero.mp (by omega)
    subst this
    cases f1 <;> cases f2 <;> simp [validLoop]
  | succ n ih =>
    intro f1 f2 p hp h1 h2
    obtain ⟨g1, rfl⟩ : ∃ g, f1 = g + 1 := ⟨f1 - 1, by omega⟩
    obtain ⟨g2, rfl⟩ : ∃ g, f2 = g + 1 := ⟨f2 - 1, by omega⟩
    cases p with
    | nil => simp [validLoop]
    | cons a rest =>
      simp only [List.length_cons] at hp
      simp only [validLoop]
      rw [ih g1 g2 rest (by omega) (by omega) (by omega),
        ih g1 g2 (rest.drop 1) (by simp; omega) (by omega) (by omega),
        ih g1 g2 (rest.drop 2) (by simp; omega) (by omega) (by omega),
        ih g1 g2 (rest.drop 3) (by simp; omega) (by omega) (by omega)]




theorem validLoop_drop_ascii (k : Nat) : ∀ (p : List Nat) (f : Nat), k ≤ p.length →
    (∀ x ∈ p.take k, x < RuneSelf) → p.length ≤ f →
    validLoop f p = validLoop (f - k) (p.drop k) := by
  induction k with
  | zero => intro p f _ _ _; simp
  | succ k ih =>
    intro p f hk hall hf
    cases p with
    | nil => simp at hk
    | cons a rest =>
      simp only [List.length_cons] at hk hf
      obtain ⟨g, rfl⟩ : ∃ g, f = g + 1 := ⟨f - 1, by omega⟩
      have ha : a < RuneSelf := hall a (by simp)
      have hrest : ∀ x ∈ rest.take k, x < RuneSelf := fun x hx => hall x (by simp [hx])
      simp only [validLoop, ha, if_true, List.drop_succ_cons]
      rw [ih rest g (by omega) hrest (by omega)]
      congr 1
      omega

theorem validLoop_skipASCII (fuel : Nat) : ∀ p : List Nat,
    validLoop (skipASCII fuel p).length (skipASCII fuel p) = validLoop p.length p := by
  induction fuel with
  | zero => intro p; rfl
  | succ fuel ih =>
    intro p
    simp only [skipASCII]
    split_ifs with h
    · rw [ih (p.drop 8)]
      rw [validLoop_drop_ascii 8 p p.length h.1 (by simpa using h.2) (le_refl _)]
      simp
    · rfl

/-- The fast path of `Valid` does not change its result. -/
theorem Valid_eq_validLoop (p : List Nat) : Valid p = validLoop p.length p := by
  simp only [Valid]
  exact validLoop_skipASCII p.length p

theorem validLoop_of_ascii : ∀ (p : List Nat) (f : Nat), (∀ x ∈ p, x < RuneSelf) →
    validLoop f p = true := by
  intro p
  induction p with
  | nil => intro f _; cases f <;> simp [validLoop]
  | cons a rest ih =>
    intro f hall
    cases f with
    | zero => simp [validLoop]
    | succ f =>
      have ha : a < RuneSelf := hall a (by simp)
      simp only [validLoop, ha, if_true]
      exact ih f (fun x hx => hall x (by simp [hx]))

/-- A buffer whose runes are all different from `RuneError` is valid UTF-8. -/
theorem validLoop_of_runes (fuel : Nat) : ∀ p : List Nat, p.length ≤ fuel →
    (∀ r ∈ runesLoop fuel p, r ≠ RuneError) → validLoop fuel p = true := by
  induction fuel with
  | zero => intro p _ _; simp [validLoop]
  | succ fuel ih =>
    intro p hp hall
    cases p with
    | nil => simp [validLoop]
    | cons a rest =>
      simp only [runesLoop, List.mem_cons, forall_eq_or_imp] at hall
      obtain ⟨h1, h2, h3, _⟩ := decode_step fuel a rest hall.1
      rw [h3]
      apply ih _ _ hall.2
      simp only [List.length_drop]
      simp only [List.length_cons] at hp h2 ⊢
      omega

end utf8

/-! ## Lemmas on the GBK codec -/

namespace gbkEncoder

/-- A rune the table switch maps lies in one of the five table ranges, hence
is at least 164 and is not `RuneError`. -/
theorem lookup_mapped_range (T : Tables) (r : Nat) (h : lookup T r ≠ .unmapped) :
    164 ≤ r ∧ r < 65510 := by
  unfold lookup at h
  simp only [encode0Low, encode0High, encode1Low, encode1High, encode2Low, encode2High,
    encode3Low, encode3High, encode4Low, encode4High] at h
  split_ifs at h <;> first | omega | exact absurd rfl h

theorem lookup_write1 (T : Tables) (r b : Nat) (h : lookup T r = .write1 b) :
    r = 0x20AC ∧ b = 0x80 := by
  unfold lookup at h
  split_ifs at h
  all_goals simp_all

theorem hasGBK_ne_RuneError (T : Tables) (r : Nat) (h : hasGBK T r) : r ≠ utf8.RuneError := by
  rcases h with h | h
  · simp only [utf8.RuneSelf] at h; simp only [utf8.RuneError]; omega
  · have := lookup_mapped_range T r h
    simp only [utf8.RuneError]; omega

theorem map_ok {α β ε : Type} (f : α → β) (x : Except ε α) (y : β) :
    x.map f = .ok y ↔ ∃ a, x = .ok a ∧ f a = y := by
  cases x <;> simp [Except.map]

theorem map_error {α β ε : Type} (f : α → β) (x : Except ε α) (e : ε) :
    x.map f = .error e ↔ x = .error e := by
  cases x <;> simp [Except.map]

/-- At end of input the encoder's only error is the repertoire error. -/
theorem loop_error (T : Tables) (fuel : Nat) : ∀ (p : List Nat) (e : TransformErr),
    loop T true fuel p = .error e → e = .ErrASCIIReplacement := by
  induction fuel with
  | zero => intro p e h; simp [loop] at h
  | succ fuel ih =>
    intro p e h
    cases p with
    | nil => simp [loop] at h
    | cons b rest =>
      simp only [loop] at h
      split_ifs at h with hb hs
      · exact ih _ _ ((map_error _ _ _).mp h)
      · simp at hs
      · split at h
        · exact ih _ _ ((map_error _ _ _).mp h)
        · exact ih _ _ ((map_error _ _ _).mp h)
        · simpa using h.symm


/-- The encoder succeeds at end of input exactly when every rune of the source
has a GBK representation. -/
theorem loop_ok_iff (T : Tables) (fuel : Nat) : ∀ p : List Nat, p.length ≤ fuel →
    ((∃ g, loop T true fuel p = .ok g) ↔ ∀ r ∈ utf8.runesLoop fuel p, hasGBK T r) := by
  induction fuel with
  | zero => intro p _; simp [loop, utf8.runesLoop]
  | succ fuel ih =>
    intro p hp
    cases p with
    | nil => simp [loop, utf8.runesLoop]
    | cons b rest =>
      simp only [List.length_cons] at hp
      simp only [utf8.runesLoop, List.mem_cons, forall_eq_or_imp]
      by_cases hb : b < utf8.RuneSelf
      · have hd : utf8.DecodeRune (b :: rest) = (b, 1) := by
          have hf : utf8.first b = 0xF0 := by
            simp only [utf8.RuneSelf] at hb
            simp [utf8.first, hb, utf8.as]
          simp [utf8.DecodeRune, hf, utf8.as, utf8.and_01]
        simp only [loop, hb, if_true, hd, List.drop_succ_cons, List.drop_zero]
        rw [← ih rest (by omega)]
        constructor
        · rintro ⟨g, hg⟩
          obtain ⟨a, ha, _⟩ := (map_ok _ _ _).mp hg
          exact ⟨Or.inl hb, a, ha⟩
        · rintro ⟨_, a, ha⟩
          exact ⟨_, (map_ok _ _ _).mpr ⟨a, ha, rfl⟩⟩
      · simp only [loop, hb, if_false]
        have hs : ¬ ((utf8.DecodeRune (b :: rest)).2 = 1 ∧ (!true) = true ∧
            (!utf8.FullRune (b :: rest)) = true) := by simp
        rw [if_neg hs]
        by_cases hm : lookup T (utf8.DecodeRune (b :: rest)).1 = .unmapped
        · rw [hm]
          constructor
          · rintro ⟨g, hg⟩; simp at hg
          · rintro ⟨h1, _⟩
            rcases h1 with h1 | h1
            · exfalso
              -- a rune below RuneSelf cannot come from a first byte at or above it
              have hne : (utf8.DecodeRune (b :: rest)).1 ≠ utf8.RuneError := by
                simp only [utf8.RuneSelf] at h1; simp only [utf8.RuneError]; omega
              obtain ⟨hs1, _, _, henc⟩ := utf8.decode_step 0 b rest hne
              obtain ⟨k, hk⟩ : ∃ k, (utf8.DecodeRune (b :: rest)).2 = k + 1 :=
                ⟨(utf8.DecodeRune (b :: rest)).2 - 1, by omega⟩
              simp only [utf8.RuneSelf] at h1 hb
              rw [hk, List.take_succ_cons] at henc
              simp only [utf8.EncodeRune, utf8.rune1Max] at henc
              rw [if_pos (by omega)] at henc
              have := (List.cons.inj henc).1
              omega
            · exact absurd hm h1
        · have hd := utf8.decode_step fuel b rest (by
            have := lookup_mapped_range T _ hm
            simp only [utf8.RuneError]; omega)
          have hlen : ((b :: rest).drop (utf8.DecodeRune (b :: rest)).2).length ≤ fuel := by
            simp only [List.length_drop, List.length_cons]; omega
          rw [← ih _ hlen]
          have hg : hasGBK T (utf8.DecodeRune (b :: rest)).1 := Or.inr hm
          cases hl : lookup T (utf8.DecodeRune (b :: rest)).1 with
          | unmapped => exact absurd hl hm
          | write1 r =>
            constructor
            · rintro ⟨g, hg'⟩
              obtain ⟨a, ha, _⟩ := (map_ok _ _ _).mp hg'
              exact ⟨hg, a, ha⟩
            · rintro ⟨_, a, ha⟩
              exact ⟨_, (map_ok _ _ _).mpr ⟨a, ha, rfl⟩⟩
          | write2 r2 =>
            constructor
            · rintro ⟨g, hg'⟩
              obtain ⟨a, ha, _⟩ := (map_ok _ _ _).mp hg'
              exact ⟨hg, a, ha⟩
            · rintro ⟨_, a, ha⟩
              exact ⟨_, (map_ok _ _ _).mpr ⟨a, ha, rfl⟩⟩

end gbkEncoder

namespace gbkDecoder

/-- At end of input the GBK decoder never reports an error: whatever the
bytes, `Transform` returns output with a nil error. -/
theorem loop_total (T : Tables) (n : Nat) : ∀ g : List Nat, g.length ≤ n →
    ∃ out, loop T true g = .ok out := by
  induction n with
  | zero =>
    intro g hg
    have : g = [] := List.length_eq_zero.mp (by omega)
    subst this
    exact ⟨[], by simp [loop]⟩
  | succ n ih =>
    intro g hg
    cases g with
    | nil => exact ⟨[], by simp [loop]⟩
    | cons c0 rest =>
      simp only [List.length_cons] at hg
      obtain ⟨o1, h1⟩ := ih rest (by omega)
      cases rest with
      | nil =>
        simp only [loop, Bool.not_true, Bool.false_eq_true, if_false]
        split_ifs <;> simp [Except.map]
      | cons c1 rest' =>
        simp only [List.length_cons] at hg
        obtain ⟨o2, h2⟩ := ih rest' (by omega)
        simp only [loop, Bool.not_true, Bool.false_eq_true, if_false]
        split_ifs <;> simp [Except.map, h1, h2]


theorem loop_ascii (T : Tables) (e : Bool) (c0 : Nat) (rest : List Nat) (h : c0 < utf8.RuneSelf) :
    loop T e (c0 :: rest) = (loop T e rest).map (utf8.EncodeRune c0 ++ ·) := by
  cases rest <;> simp [loop, h]

theorem loop_euro (T : Tables) (e : Bool) (rest : List Nat) :
    loop T e (0x80 :: rest) = (loop T e rest).map (utf8.EncodeRune 0x20AC ++ ·) := by
  cases rest <;> simp [loop, utf8.RuneSelf]

theorem loop_pair (T : Tables) (e : Bool) (c0 c1 r : Nat) (rest : List Nat)
    (h1 : 0x81 ≤ c0) (h2 : c0 < 0xff)
    (h3 : (0x40 ≤ c1 ∧ c1 < 0x7f) ∨ (0x80 ≤ c1 ∧ c1 < 0xff))
    (hidx : (c0 - 0x81) * 190 + (if 0x40 ≤ c1 ∧ c1 < 0x7f then c1 - 0x40 else c1 - 0x41)
      < numDecode)
    (h4 : T.decode ((c0 - 0x81) * 190 + (if 0x40 ≤ c1 ∧ c1 < 0x7f then c1 - 0x40 else c1 - 0x41))
      % 65536 = r) (hr : r ≠ 0) :
    loop T e (c0 :: c1 :: rest) = (loop T e rest).map (utf8.EncodeRune r ++ ·) := by
  have hc0 : ¬ (c0 < utf8.RuneSelf) := by simp only [utf8.RuneSelf]; omega
  have hc0' : ¬ (c0 = 0x80) := by omega
  simp only [loop, hc0, hc0', h2, h3, if_false, if_true, hidx, h4, hr]

/-- Decoding what the encoder produced gives the source back, when the encode
tables are inverse to the decode table. -/
theorem loop_encoded (T : Tables) (hT : T.Inverse) (fuel : Nat) : ∀ p g : List Nat, p.length ≤ fuel →
    gbkEncoder.loop T true fuel p = .ok g → loop T true g = .ok p := by
  induction fuel with
  | zero =>
    intro p g hp h
    have : p = [] := List.length_eq_zero.mp (by omega)
    subst this
    simp only [gbkEncoder.loop, Except.ok.injEq] at h
    subst h; simp [loop]
  | succ fuel ih =>
    intro p g hp h
    cases p with
    | nil =>
      simp only [gbkEncoder.loop, Except.ok.injEq] at h
      subst h; simp [loop]
    | cons b rest =>
      simp only [List.length_cons] at hp
      by_cases hb : b < utf8.RuneSelf
      · simp only [gbkEncoder.loop, hb, if_true] at h
        obtain ⟨a, ha, rfl⟩ := (gbkEncoder.map_ok _ _ _).mp h
        have hb' : b < 128 := by simpa [utf8.RuneSelf] using hb
        have hmod : b % 256 = b := by omega
        rw [hmod, loop_ascii T true b a hb, ih rest a (by omega) ha]
        simp only [utf8.EncodeRune, utf8.rune1Max]
        rw [if_pos (by omega), hmod]
        rfl
      · simp only [gbkEncoder.loop, hb, if_false] at h
        have hs : ¬ ((utf8.DecodeRune (b :: rest)).2 = 1 ∧ (!true) = true ∧
            (!utf8.FullRune (b :: rest)) = true) := by simp
        rw [if_neg hs] at h
        have hm : gbkEncoder.lookup T (utf8.DecodeRune (b :: rest)).1 ≠ .unmapped := by
          intro hm; rw [hm] at h; simp at h
        have hrange := gbkEncoder.lookup_mapped_range T _ hm
        obtain ⟨hs1, hs2, _, henc⟩ := utf8.decode_step fuel b rest (by
          simp only [utf8.RuneError]; omega)
        have hlen : ((b :: rest).drop (utf8.DecodeRune (b :: rest)).2).length ≤ fuel := by
          simp only [List.length_drop, List.length_cons]; omega
        have hsplit : (b :: rest).take (utf8.DecodeRune (b :: rest)).2 ++
            (b :: rest).drop (utf8.DecodeRune (b :: rest)).2 = b :: rest := List.take_append_drop _ _
        cases hl : gbkEncoder.lookup T (utf8.DecodeRune (b :: rest)).1 with
        | unmapped => exact absurd hl hm
        | write1 r =>
          rw [hl] at h
          obtain ⟨a, ha, rfl⟩ := (gbkEncoder.map_ok _ _ _).mp h
          obtain ⟨hr, rfl⟩ := gbkEncoder.lookup_write1 T _ _ hl
          rw [show (128 : Nat) % 256 = 0x80 from rfl, loop_euro, ih _ a hlen ha, ← hr, henc]
          simp [Except.map, hsplit]
        | write2 r2 =>
          rw [hl] at h
          obtain ⟨a, ha, rfl⟩ := (gbkEncoder.map_ok _ _ _).mp h
          obtain ⟨h1, h2, h3, hidx, h4⟩ := hT _ _ hl
          have hnz : (utf8.DecodeRune (b :: rest)).1 ≠ 0 := by omega
          rw [loop_pair T true _ _ _ a h1 h2 h3 hidx h4 hnz, ih _ a hlen ha, henc]
          simp [Except.map, hsplit]

end gbkDecoder

/-! ## The claims -/

theorem canDecodeGBK_true (T : Tables) (data : List Nat) : canDecodeGBK T data = true := by
  obtain ⟨out, h⟩ := gbkDecoder.loop_total T data.length data (le_refl _)
  simp [canDecodeGBK, transform.BytesDecode, gbkDecoder.Transform, h]

/-- C1 (fails on the code): `TransformToUTF8` does not reject malformed GBK. The
byte 0xFF, a lead byte with no trail byte, a lead byte followed by a byte
outside the trail range and a lead/trail pair whose table entry is empty are
each decoded to U+FFFD (EF BF BD) with a nil error, and no input at all makes
`TransformToUTF8` return an error. -/
theorem TransformToUTF8_substitutes_RuneError (T : Tables) :
    TransformToUTF8 T [0xFF] = .ok [0xEF, 0xBF, 0xBD] ∧
    TransformToUTF8 T [0x81] = .ok [0xEF, 0xBF, 0xBD] ∧
    TransformToUTF8 T [0x81, 0x20] = .ok [0xEF, 0xBF, 0xBD, 0x20] ∧
    (T.decode 0 % 65536 = 0 → TransformToUTF8 T [0x81, 0x40] = .ok [0xEF, 0xBF, 0xBD]) ∧
    ∀ data : List Nat, ∃ out, TransformToUTF8 T data = .ok out := by
  refine ⟨rfl, rfl, rfl, ?_, ?_⟩
  · intro h
    simp [TransformToUTF8, transform.ReadAllDecode, gbkDecoder.Transform, gbkDecoder.loop,
      utf8.RuneSelf, numDecode, h, Except.map]
    rfl
  · intro data
    exact gbkDecoder.loop_total T data.length data (le_refl _)

/-- C2 (fails on the code): the buffer FF FE is not valid UTF-8, yet
`canDecodeGBK` returns true for it and `Detect` classifies it as GBK, not
Unknown; `canDecodeGBK` returns true for every buffer, so `Detect` never
returns Unknown. -/
theorem Detect_FF_FE_is_GBK (T : Tables) :
    utf8.Valid [0xFF, 0xFE] = false ∧ canDecodeGBK T [0xFF, 0xFE] = true ∧
    Detect T [0xFF, 0xFE] = GBK ∧
    (∀ data : List Nat, canDecodeGBK T data = true) ∧
    ∀ data : List Nat, Detect T data ≠ Unknown := by
  refine ⟨rfl, rfl, rfl, canDecodeGBK_true T, ?_⟩
  intro data
  simp only [Detect, canDecodeGBK_true T data]
  cases utf8.Valid data <;> simp

/-- C7: `Detect` implements the decision table. `Detect(b)` is UTF8 exactly
when `utf8.Valid(b)`, GBK exactly when `b` is not valid UTF-8 and
`canDecodeGBK(b)`, Unknown exactly when both are false; and D6 D0 CE C4 is not
valid UTF-8 and is classified GBK. -/
theorem Detect_decision_table (T : Tables) (b : List Nat) :
    (Detect T b = UTF8 ↔ utf8.Valid b = true) ∧
    (Detect T b = GBK ↔ utf8.Valid b = false ∧ canDecodeGBK T b = true) ∧
    (Detect T b = Unknown ↔ utf8.Valid b = false ∧ canDecodeGBK T b = false) ∧
    utf8.Valid [0xD6, 0xD0, 0xCE, 0xC4] = false ∧
    Detect T [0xD6, 0xD0, 0xCE, 0xC4] = GBK := by
  refine ⟨?_, ?_, ?_, rfl, ?_⟩
  · simp only [Detect]
    cases utf8.Valid b <;> cases canDecodeGBK T b <;> simp
  · simp only [Detect]
    cases utf8.Valid b <;> cases canDecodeGBK T b <;> simp
  · simp only [Detect]
    cases utf8.Valid b <;> cases canDecodeGBK T b <;> simp
  · have hv : utf8.Valid [0xD6, 0xD0, 0xCE, 0xC4] = false := rfl
    simp [Detect, hv, canDecodeGBK_true]

/-- C8: ASCII tie-break. Every buffer whose bytes are all below 0x80, the empty
buffer included, is classified UTF8; and `DetectFile` returns UTF8 with a nil
error for a file with empty content that it can open and read. -/
theorem Detect_ascii_is_UTF8 (T : Tables) :
    (∀ b : List Nat, (∀ x ∈ b, x < 0x80) → Detect T b = UTF8) ∧
    Detect T [] = UTF8 ∧
    (∀ (o : OS) (fs : FS) (path : Path) (f : FileNode), o.openFails = false →
      o.readAllFails = false → fs path = some f → f.data = [] →
      DetectFile T o fs path = (UTF8, none)) := by
  refine ⟨?_, rfl, ?_⟩
  · intro b hb
    have hv : utf8.Valid b = true := by
      rw [utf8.Valid_eq_validLoop]
      exact utf8.validLoop_of_ascii b _ (by simpa [utf8.RuneSelf] using hb)
    simp [Detect, hv]
  · intro o fs path f h1 h2 h3 h4
    simp [DetectFile, h1, h2, h3, h4]

/-- Witness of C8 on the buffer "VB6" and on an empty `src/Form1.frm`. -/
theorem Detect_ascii_is_UTF8_witness :
    Detect zhongwenTables [0x56, 0x42, 0x36] = UTF8 ∧
    DetectFile zhongwenTables (quietOS 0o022) (diskWith [] 0o644) formPath = (UTF8, none) :=
  ⟨(Detect_ascii_is_UTF8 zhongwenTables).1 [0x56, 0x42, 0x36] (by decide),
   (Detect_ascii_is_UTF8 zhongwenTables).2.2 (quietOS 0o022) (diskWith [] 0o644) formPath
     ⟨[], 0o644⟩ rfl rfl rfl rfl⟩

/-- C9: conversion scenario. With the table entries of 0xD6D0 (U+4E2D) and
0xCEC4 (U+6587), `TransformToUTF8` maps D6 D0 CE C4 to E4 B8 AD E6 96 87 with
a nil error. -/
theorem TransformToUTF8_zhongwen (T : Tables) (h1 : T.decode 16293 % 65536 = 0x4E2D)
    (h2 : T.decode 14761 % 65536 = 0x6587) :
    TransformToUTF8 T [0xD6, 0xD0, 0xCE, 0xC4] = .ok [0xE4, 0xB8, 0xAD, 0xE6, 0x96, 0x87] := by
  simp only [TransformToUTF8, transform.ReadAllDecode, gbkDecoder.Transform]
  rw [gbkDecoder.loop_pair T true 0xD6 0xD0 0x4E2D _ (by decide) (by decide) (by decide)
      (by decide) (by simpa using h1) (by decide),
    gbkDecoder.loop_pair T true 0xCE 0xC4 0x6587 _ (by decide) (by decide) (by decide)
      (by decide) (by simpa using h2) (by decide)]
  rfl

/-- Witness of C9 on the table fragment `zhongwenTables`. -/
theorem TransformToUTF8_zhongwen_witness :
    TransformToUTF8 zhongwenTables [0xD6, 0xD0, 0xCE, 0xC4]
      = .ok [0xE4, 0xB8, 0xAD, 0xE6, 0x96, 0x87] :=
  TransformToUTF8_zhongwen zhongwenTables rfl rfl

theorem tmpPath_ne (p : Path) : tmpPath p ≠ p := by
  intro h
  have h1 := congrArg (fun q => q.name.length) h
  simp [tmpPath] at h1
  exact absurd h1 (by decide)

/-- Whenever `safeWrite` returns an error, the file at the target path is the
one that was there before the call. -/
theorem safeWrite_error_keeps_target (o : OS) (fs : FS) (path : Path) (data : List Nat)
    (e : ConvertErr) (h : (safeWrite o fs path data).2 = some e) :
    (safeWrite o fs path data).1 path = fs path := by
  have hne : path ≠ tmpPath path := fun h => tmpPath_ne path h.symm
  unfold safeWrite at h ⊢
  cases hst : os.Stat o fs path with
  | error _ => simp
  | ok info =>
    simp only [hst] at h ⊢
    cases hw : o.write with
    | openFails => simp [os.WriteFile, hw]
    | writeFails n => simp [os.WriteFile, hw, FS.set, hne]
    | none =>
      simp only [os.WriteFile, hw] at h ⊢
      by_cases hr : o.renameFails = true
      · by_cases hrm : o.removeFails = true
        · simp [os.Rename, os.Remove, hr, hrm, FS.set, hne]
        · simp [os.Rename, os.Remove, hr, hrm, FS.set, hne]
      · simp [os.Rename, hr, FS.set] at h

/-- Whenever `safeWrite` returns nil, no file is left at the temporary path. -/
theorem safeWrite_ok_no_tmp (o : OS) (fs : FS) (path : Path) (data : List Nat)
    (h : (safeWrite o fs path data).2 = none) :
    (safeWrite o fs path data).1 (tmpPath path) = none := by
  have hne : tmpPath path ≠ path := tmpPath_ne path
  unfold safeWrite at h ⊢
  cases hst : os.Stat o fs path with
  | error _ => simp [hst] at h
  | ok info =>
    simp only [hst] at h ⊢
    cases hw : o.write with
    | openFails => simp [os.WriteFile, hw] at h
    | writeFails n => simp [os.WriteFile, hw] at h
    | none =>
      simp only [os.WriteFile, hw] at h ⊢
      by_cases hr : o.renameFails = true
      · simp [os.Rename, hr] at h
      · simp [os.Rename, hr, FS.set, hne]

/-- C3 (fails on the code): a write to the temporary file that fails after one
of two bytes reached the disk makes `safeWrite` return "write tmp failed"
while the partly written `src/Form1.frm.tmp`, which did not exist before,
stays on disk; only the rename-failure path removes the temporary file. -/
theorem safeWrite_failed_write_leaves_tmp :
    (safeWrite { quietOS 0o022 with write := .writeFails 1 } (diskWith [0x41] 0o644) formPath
      [0x42, 0x43]).2 = some .writeTmpFailed ∧
    diskWith [0x41] 0o644 (tmpPath formPath) = none ∧
    (safeWrite { quietOS 0o022 with write := .writeFails 1 } (diskWith [0x41] 0o644) formPath
      [0x42, 0x43]).1 (tmpPath formPath) = some ⟨[0x42], 0o644⟩ ∧
    (safeWrite { quietOS 0o022 with write := .writeFails 1 } (diskWith [0x41] 0o644) formPath
      [0x42, 0x43]).1 formPath = some ⟨[0x41], 0o644⟩ ∧
    (safeWrite { quietOS 0o022 with renameFails := true } (diskWith [0x41] 0o644) formPath
      [0x42, 0x43]).2 = some .replaceFailed ∧
    (safeWrite { quietOS 0o022 with renameFails := true } (diskWith [0x41] 0o644) formPath
      [0x42, 0x43]).1 (tmpPath formPath) = none := by
  refine ⟨by decide, by decide, by decide, by decide, by decide, by decide⟩

/-- C4 (fails on the code): `safeWrite` returns nil and the target ends up with
other permission bits than before. Under umask 022 a target with bits 0664 is
left with 0644; and with a file already at the temporary path (bits 0600,
umask 0) the target is left with that file's bits. -/
theorem safeWrite_ok_changes_perm :
    (safeWrite (quietOS 0o022) (diskWith [0x41] 0o664) formPath [0x42]).2 = none ∧
    diskWith [0x41] 0o664 formPath = some ⟨[0x41], 0o664⟩ ∧
    (safeWrite (quietOS 0o022) (diskWith [0x41] 0o664) formPath [0x42]).1 formPath
      = some ⟨[0x42], 0o644⟩ ∧
    (safeWrite (quietOS 0) ((diskWith [0x41] 0o664).set (tmpPath formPath) (some ⟨[], 0o600⟩))
      formPath [0x42]).2 = none ∧
    (safeWrite (quietOS 0) ((diskWith [0x41] 0o664).set (tmpPath formPath) (some ⟨[], 0o600⟩))
      formPath [0x42]).1 formPath = some ⟨[0x42], 0o600⟩ := by
  refine ⟨by decide, by decide, by decide, by decide, by decide⟩

theorem TransformToGBK_cases (T : Tables) (b : List Nat) :
    (∃ g, TransformToGBK T b = .ok g) ∨ TransformToGBK T b = .error .ErrASCIIReplacement := by
  simp only [TransformToGBK, transform.ReadAllEncode, gbkEncoder.Transform]
  cases h : gbkEncoder.loop T true b.length b with
  | ok g => exact Or.inl ⟨g, rfl⟩
  | error e => rw [gbkEncoder.loop_error T _ _ _ h]; exact Or.inr rfl

theorem TransformToGBK_ok_iff (T : Tables) (b : List Nat) :
    (∃ g, TransformToGBK T b = .ok g) ↔ ∀ r ∈ utf8.runes b, hasGBK T r := by
  simp only [TransformToGBK, transform.ReadAllEncode, gbkEncoder.Transform, utf8.runes]
  exact gbkEncoder.loop_ok_iff T b.length b (le_refl _)

theorem Valid_of_hasGBK (T : Tables) (b : List Nat) (h : ∀ r ∈ utf8.runes b, hasGBK T r) :
    utf8.Valid b = true := by
  rw [utf8.Valid_eq_validLoop]
  exact utf8.validLoop_of_runes b.length b (le_refl _)
    (fun r hr => gbkEncoder.hasGBK_ne_RuneError T r (h r hr))

/-- C6: encode strictness. If the input is not valid UTF-8, or one of the
characters it decodes to has no GBK representation, `TransformToGBK` returns
the repertoire error and no bytes; `ConvertFile` towards GBK on a file with
such content then returns "transformation failed" without calling
`safeWrite`, the disk unchanged. -/
theorem TransformToGBK_strict (T : Tables) (o : OS) (fs : FS) (path : Path) (b : List Nat)
    (h : utf8.Valid b = false ∨ ∃ r ∈ utf8.runes b, ¬ hasGBK T r) :
    TransformToGBK T b = .error .ErrASCIIReplacement ∧
    (os.ReadFile o fs path = .ok b →
      ConvertFile T o fs path false
        = (fs, some (.transformationFailed .ErrASCIIReplacement), false)) := by
  have herr : TransformToGBK T b = .error .ErrASCIIReplacement := by
    rcases TransformToGBK_cases T b with hok | he
    · exfalso
      have hall := (TransformToGBK_ok_iff T b).mp hok
      rcases h with hv | ⟨r, hr, hn⟩
      · rw [Valid_of_hasGBK T b hall] at hv; exact absurd hv (by decide)
      · exact hn (hall r hr)
    · exact he
  refine ⟨herr, ?_⟩
  intro hread
  simp [ConvertFile, hread, herr]

/-- Witness of C6 on the invalid byte FF and on C2 80 (U+0080, which GBK lacks). -/
theorem TransformToGBK_strict_witness :
    (TransformToGBK zhongwenTables [0xFF] = .error .ErrASCIIReplacement ∧
      (os.ReadFile (quietOS 0o022) (diskWith [0xFF] 0o644) formPath = .ok [0xFF] →
        ConvertFile zhongwenTables (quietOS 0o022) (diskWith [0xFF] 0o644) formPath false
          = (diskWith [0xFF] 0o644, some (.transformationFailed .ErrASCIIReplacement), false))) ∧
    (TransformToGBK zhongwenTables [0xC2, 0x80] = .error .ErrASCIIReplacement ∧
      (os.ReadFile (quietOS 0o022) (diskWith [0xC2, 0x80] 0o644) formPath = .ok [0xC2, 0x80] →
        ConvertFile zhongwenTables (quietOS 0o022) (diskWith [0xC2, 0x80] 0o644) formPath false
          = (diskWith [0xC2, 0x80] 0o644, some (.transformationFailed .ErrASCIIReplacement),
              false))) :=
  ⟨TransformToGBK_strict zhongwenTables (quietOS 0o022) (diskWith [0xFF] 0o644) formPath [0xFF]
      (Or.inl rfl),
   TransformToGBK_strict zhongwenTables (quietOS 0o022) (diskWith [0xC2, 0x80] 0o644) formPath
      [0xC2, 0x80] (Or.inr ⟨0x80, by decide, by decide⟩)⟩

/-- C5 as stated fails: the buffer C2 80 is valid UTF-8 (U+0080) and decodes
under GBK without error, yet for no code tables does `TransformToGBK` succeed
on it, U+0080 lying outside every encode table. -/
theorem roundtrip_fails_on_C2_80 :
    ¬ ∃ T : Tables, (utf8.Valid [0xC2, 0x80] = true → canDecodeGBK T [0xC2, 0x80] = true →
      ∃ g, TransformToGBK T [0xC2, 0x80] = .ok g ∧ TransformToUTF8 T g = .ok [0xC2, 0x80]) := by
  rintro ⟨T, h⟩
  obtain ⟨g, hg, _⟩ := h rfl (canDecodeGBK_true T _)
  have : TransformToGBK T [0xC2, 0x80] = .error .ErrASCIIReplacement := rfl
  rw [this] at hg
  exact absurd hg (by simp)

/-- C5 amended: round trip. For code tables whose encode tables are inverse to
the decode table, every buffer that is valid in both encodings and whose
characters all have a GBK representation is encoded by `TransformToGBK` to
some `g`, and `TransformToUTF8 g` succeeds and returns the buffer byte for
byte. -/
theorem roundtrip_of_hasGBK (T : Tables) (hT : T.Inverse) (b : List Nat)
    (_hv : utf8.Valid b = true) (_hd : canDecodeGBK T b = true)
    (hr : ∀ r ∈ utf8.runes b, hasGBK T r) :
    ∃ g, TransformToGBK T b = .ok g ∧ TransformToUTF8 T g = .ok b := by
  obtain ⟨g, hg⟩ := (TransformToGBK_ok_iff T b).mpr hr
  refine ⟨g, hg, ?_⟩
  simp only [TransformToGBK, transform.ReadAllEncode, gbkEncoder.Transform] at hg
  simp only [TransformToUTF8, transform.ReadAllDecode, gbkDecoder.Transform]
  exact gbkDecoder.loop_encoded T hT b.length b g (le_refl _) hg

theorem zhongwenTables_inverse : zhongwenTables.Inverse := by
  intro r r2 h
  have e0 : ∀ i, zhongwenTables.encode0 i =
      if i = 8108 then 0xD6D0 else if i = 14086 then 0xCEC4 else 0 := fun _ => rfl
  have e1 : ∀ i, zhongwenTables.encode1 i = 0 := fun _ => rfl
  have e2 : ∀ i, zhongwenTables.encode2 i = 0 := fun _ => rfl
  have e3 : ∀ i, zhongwenTables.encode3 i = 0 := fun _ => rfl
  have e4 : ∀ i, zhongwenTables.encode4 i = 0 := fun _ => rfl
  unfold gbkEncoder.lookup at h
  rw [e0, e1, e2, e3, e4] at h
  by_cases ha : r = 0x4E2D
  · subst ha
    have : r2 = 0xD6D0 := by
      norm_num [encode0Low, encode0High] at h
      exact h.symm
    subst this
    decide
  · by_cases hb : r = 0x6587
    · subst hb
      have : r2 = 0xCEC4 := by
        norm_num [encode0Low, encode0High] at h
        exact h.symm
      subst this
      decide
    · exfalso
      simp only [encode0Low, encode0High, encode1Low, encode1High, encode2Low, encode2High,
        encode3Low, encode3High, encode4Low, encode4High] at h
      split_ifs at h <;> omega

/-- Witness of the amended C5 on the UTF-8 bytes of U+4E2D U+6587 followed by "A". -/
theorem roundtrip_of_hasGBK_witness :
    ∃ g, TransformToGBK zhongwenTables [0xE4, 0xB8, 0xAD, 0xE6, 0x96, 0x87, 0x41] = .ok g ∧
      TransformToUTF8 zhongwenTables g = .ok [0xE4, 0xB8, 0xAD, 0xE6, 0x96, 0x87, 0x41] :=
  roundtrip_of_hasGBK zhongwenTables zhongwenTables_inverse
    [0xE4, 0xB8, 0xAD, 0xE6, 0x96, 0x87, 0x41] rfl rfl (by decide)

/-- C10 as stated fails: on a candidate file that `DetectFile` cannot open,
`runConvert` does not call `ConvertFile` (the file is neither classified GBK
nor UTF8), yet the file is counted as failed, not as skipped. -/
theorem runConvert_detect_error_not_skipped :
    (runConvert zhongwenTables (fun _ => { quietOS 0o022 with openFails := true }) true
        (diskWith [0x41] 0o644) (.ok [formPath])).map (fun s => (s.calls, s.tally))
      = some ([], ⟨0, 0, 1⟩) := by
  decide

/-- C10 amended: skip rule of `runConvert`. The run on `files ++ [file]` is the
run on `files` followed by the loop body on `file`. In that body, for either
direction: when `DetectFile` returned an error the file is counted as failed
exactly once, `ConvertFile` is not called and the disk is unchanged; when it
returned `enc` without error, `ConvertFile` is called on the file exactly when
the direction is to-UTF-8 and `enc` is GBK, or the direction is to-GBK and
`enc` is UTF8 (the skip counter is then left alone and exactly one of the
success and failure counters grows by one), and otherwise the skip counter
grows by one, the other counters and the disk are unchanged and `ConvertFile`
is not called. In particular a file classified Unknown is not converted in
either direction, and a file classified UTF8 is skipped by the to-UTF-8
operation. -/
theorem runConvert_skip_rule (T : Tables) (env : Path → OS) (toUTF8 : Bool) (fs : FS)
    (files : List Path) (file : Path) :
    ∃ s : Run, runConvert T env toUTF8 fs (.ok files) = some s ∧
      runConvert T env toUTF8 fs (.ok (files ++ [file]))
        = some (runConvertBody T (env file) toUTF8 s file (DetectFile T (env file) s.fs file)) ∧
      (∀ (enc : Encoding) (e : IOErr),
        (runConvertBody T (env file) toUTF8 s file (enc, some e)).calls = s.calls ∧
        (runConvertBody T (env file) toUTF8 s file (enc, some e)).fs = s.fs ∧
        (runConvertBody T (env file) toUTF8 s file (enc, some e)).tally
          = { s.tally with failCount := s.tally.failCount + 1 }) ∧
      (∀ enc : Encoding, ((toUTF8 = true ∧ enc = GBK) ∨ (toUTF8 = false ∧ enc = UTF8)) →
        (runConvertBody T (env file) toUTF8 s file (enc, none)).calls = s.calls ++ [file] ∧
        (runConvertBody T (env file) toUTF8 s file (enc, none)).fs
          = (ConvertFile T (env file) s.fs file toUTF8).1 ∧
        (runConvertBody T (env file) toUTF8 s file (enc, none)).tally.skipCount
          = s.tally.skipCount ∧
        (runConvertBody T (env file) toUTF8 s file (enc, none)).tally.successCount
          + (runConvertBody T (env file) toUTF8 s file (enc, none)).tally.failCount
          = s.tally.successCount + s.tally.failCount + 1) ∧
      (∀ enc : Encoding, ¬ ((toUTF8 = true ∧ enc = GBK) ∨ (toUTF8 = false ∧ enc = UTF8)) →
        (runConvertBody T (env file) toUTF8 s file (enc, none)).calls = s.calls ∧
        (runConvertBody T (env file) toUTF8 s file (enc, none)).fs = s.fs ∧
        (runConvertBody T (env file) toUTF8 s file (enc, none)).tally
          = { s.tally with skipCount := s.tally.skipCount + 1 }) ∧
      ((runConvertBody T (env file) toUTF8 s file (Unknown, none)).calls = s.calls ∧
        (runConvertBody T (env file) toUTF8 s file (Unknown, none)).fs = s.fs ∧
        (runConvertBody T (env file) toUTF8 s file (Unknown, none)).tally
          = { s.tally with skipCount := s.tally.skipCount + 1 }) ∧
      (toUTF8 = true →
        (runConvertBody T (env file) toUTF8 s file (UTF8, none)).calls = s.calls ∧
        (runConvertBody T (env file) toUTF8 s file (UTF8, none)).fs = s.fs ∧
        (runConvertBody T (env file) toUTF8 s file (UTF8, none)).tally
          = { s.tally with skipCount := s.tally.skipCount + 1 }) := by
  refine ⟨files.foldl (fun s file => runConvertStep T (env file) toUTF8 s file)
    { fs := fs, tally := ⟨0, 0, 0⟩, calls := [] }, rfl, ?_, ?_, ?_, ?_, ?_, ?_⟩
  · simp [runConvert, List.foldl_append, runConvertStep]
  · intro enc e
    simp [runConvertBody]
  · intro enc hc
    rcases hc with ⟨h1, h2⟩ | ⟨h1, h2⟩
    · subst h1 h2
      simp only [runConvertBody]
      rcases hcf : ConvertFile T (env file) _ file true with ⟨fs1, err, w⟩
      cases err <;> simp <;> omega
    · subst h1 h2
      simp only [runConvertBody]
      rcases hcf : ConvertFile T (env file) _ file false with ⟨fs1, err, w⟩
      cases err <;> simp <;> omega
  · intro enc hc
    simp only [runConvertBody]
    cases toUTF8 <;> cases enc <;> simp at hc ⊢
  · simp only [runConvertBody]
    cases toUTF8 <;> simp
  · intro ht
    subst ht
    simp [runConvertBody]

end Vb6enc
